import Mathlib

/-!
Shallow embedding of the resumable, checkpointed ingestion pipeline of this
repository (src/code: the ecosystem ingestion module, npm.py, npm_plus.py,
oss_craw.py), together with theorems checking the claims of the
specification against it.

Python strings are sequences of code points, so the Python string
operations used by the sources (strip, startswith, endswith, slicing,
split) are embedded as executable functions on the character list backing
a Lean String.  External collaborators (the json decoder, the HTTP
session, the CouchDB listing endpoint) are embedded from their interfaces:
the json decoder is a parameter of type String to Option, the listing
endpoint is a sorted key list filtered by the inclusive startkey, and the
urllib3 retry policy mounted on the session is embedded from the
configuration the source installs (total, backoff factor, status
forcelist).
-/

set_option maxHeartbeats 1000000

/-- The empty string as a named constant, so that later definitions never
place a string literal directly after an identifier. -/
def emptyS : String := ""

/-- A single comma, the list separator stripped by the line policy. -/
def commaS : String := ","

/-- The opening JSON array delimiter. -/
def lBracketS : String := "["

/-- The closing JSON array delimiter. -/
def rBracketS : String := "]"

/-- A colon, the separator of maven coordinates. -/
def colonS : String := ":"

/-- The name of the maven ecosystem, whose packages carry coordinates. -/
def mavenS : String := "maven"

/-- Drop leading and trailing whitespace characters from a character list. -/
def trimChars (l : List Char) : List Char :=
  ((l.dropWhile Char.isWhitespace).reverse.dropWhile Char.isWhitespace).reverse

/-- Embedding of the Python str.strip method (no arguments). -/
def pyStrip (s : String) : String := String.mk (trimChars s.data)

/-- Embedding of the Python str.startswith method. -/
def pyStartsWith (s t : String) : Bool := t.data.isPrefixOf s.data

/-- Embedding of the Python str.endswith method. -/
def pyEndsWith (s t : String) : Bool := t.data.isSuffixOf s.data

/-- Embedding of the Python slice expression dropping the final character. -/
def pyDropLast (s : String) : String := String.mk s.data.dropLast

/-- Embedding of the Python slice expression keeping the first n characters. -/
def takeChars (n : Nat) (s : String) : String := String.mk (s.data.take n)

/-- Split a character list at every occurrence of the character c. -/
def splitOnChar (c : Char) : List Char → List (List Char)
  | [] => [[]]
  | a :: rest =>
    match splitOnChar c rest with
    | [] => [[]]
    | h :: t => if a = c then [] :: h :: t else (a :: h) :: t

/-- Embedding of the Python str.split method with a one-character separator. -/
def pySplit (c : Char) (s : String) : List String :=
  (splitOnChar c s.data).map String.mk

/-- Python string truthiness: a string is truthy iff it is nonempty. -/
def pyTruthy (s : String) : Bool := s != emptyS

namespace EcosystemParser

/-- Batch size of the bulk insert loop of save_packages_to_db. -/
def BATCH_SIZE : Nat := 1000

/-- Count of parsed records between two automatic bookmark saves. -/
def AUTO_SAVE_INTERVAL : Nat := 50000

/-- Names of the ecosystems that have destination tables: the keys of the
ECOSYSTEM_TABLES dictionary of the source. -/
def ECOSYSTEM_TABLES : List String :=
  ["npm", "pypi", "maven", "nuget", "go", "rubygems", "cargo"]

/-- A parsed package record: the source reads the Name key with default
empty string and the Versions key as a list whose members are passed
through str, so Name is an optional string and Versions a string list. -/
structure Package where
  Name : Option String
  Versions : List String
deriving DecidableEq

/-- A package row written to the destination store: the maven branch
writes name, group id and artifact id, every other ecosystem writes only
the name. -/
inductive PkgRow where
  | maven (name groupId artifactId : String)
  | plain (name : String)
deriving DecidableEq

/-- Version rows kept for one package: versions that are falsy or strip to
the empty string are dropped, and the survivors are truncated to their
first 500 characters, exactly as the version_data comprehension of
save_packages_to_db does. -/
def versionData (versions : List String) : List String :=
  (versions.filter (fun v => pyTruthy v && pyTruthy (pyStrip v))).map (takeChars 500)

/-- Effect of save_packages_to_db on a single parsed package: skip it when
the stripped name is empty or the version list is empty; in the maven
branch also skip it when the name has fewer than two colon separated
parts; otherwise produce the package row and its version rows. -/
def savePackage (ecosystem : String) (pkg : Package) : Option (PkgRow × List String) :=
  let name := pyStrip (pkg.Name.getD emptyS)
  if name = emptyS ∨ pkg.Versions = [] then none
  else if ecosystem = mavenS then
    let parts := pySplit ':' name
    if 2 ≤ parts.length then
      some (PkgRow.maven name (parts.getD 0 emptyS) (parts.getD 1 emptyS), versionData pkg.Versions)
    else none
  else some (PkgRow.plain name, versionData pkg.Versions)

/-- Embedding of save_packages_to_db: the rows durably written to the
destination store for a list of parsed packages.  The early return guard
of the source (empty input or unknown ecosystem) writes nothing; the
nested batch loops visit every package once in order, so the writes are
the filterMap of the per-package effect. -/
def save_packages_to_db (ecosystem : String) (packages_data : List Package) :
    List (PkgRow × List String) :=
  if packages_data = [] ∨ ecosystem ∉ ECOSYSTEM_TABLES then []
  else packages_data.filterMap (savePackage ecosystem)

/-- Observable effects of the large-file branch of
parse_json_file_with_bookmark, in the order the source performs them: a
bookmark write recording a resume position, or a durable batch commit of
the buffered packages through save_packages_to_db. -/
inductive Event (α : Type) where
  | saveBookmark (position : Nat)
  | commitBatch (batch : List α)
deriving DecidableEq

/-- Running state of the large-file parsing loop: the in-memory buffer,
the count of records parsed so far in this invocation, and the trace of
effects emitted so far. -/
structure LargeState (α : Type) where
  packages : List α
  processedCount : Nat
  trace : List (Event α)
deriving DecidableEq

/-- The automatic save performed when processed_count hits the save
interval: the source first updates and saves the bookmark with position
one past the line just parsed, and only afterwards, when the buffer is
nonempty, commits the buffer to the store and clears it. -/
def flushAt (i : Nat) (st : LargeState α) : LargeState α :=
  let st1 : LargeState α :=
    ⟨st.packages, st.processedCount, st.trace ++ [Event.saveBookmark (i + 1)]⟩
  if st1.packages.isEmpty then st1
  else ⟨[], st1.processedCount, st1.trace ++ [Event.commitBatch st1.packages]⟩

/-- Keep the trimmed line when it is truthy and does not start with an
opening or closing array bracket: the large-file branch line filter. -/
def largeLineKept (l : String) : Bool :=
  pyTruthy l && !(pyStartsWith l lBracketS) && !(pyStartsWith l rBracketS)

/-- Strip one trailing comma used as a list separator. -/
def stripTrailingComma (l : String) : String :=
  if pyEndsWith l commaS then pyDropLast l else l

/-- One iteration of the large-file loop of parse_json_file_with_bookmark
over the line with index i: skip lines before the resume position, strip,
filter, strip one trailing comma, decode, and on every save-interval
boundary save the bookmark and then commit the buffer. -/
def largeStep (interval : Nat) (decode : String → Option α) (startPosition : Nat)
    (st : LargeState α) (x : Nat × String) : LargeState α :=
  if x.1 < startPosition then st
  else
    let l := pyStrip x.2
    if largeLineKept l then
      match decode (stripTrailingComma l) with
      | none => st
      | some pkg =>
        let st2 : LargeState α := ⟨st.packages ++ [pkg], st.processedCount + 1, st.trace⟩
        if st2.processedCount % interval = 0 then flushAt x.1 st2 else st2
    else st

/-- Embedding of the large-file branch of parse_json_file_with_bookmark:
fold the per-line step over the enumerated lines of the unit, starting
from an empty buffer and an empty effect trace. -/
def parse_json_file_large (interval : Nat) (decode : String → Option α)
    (startPosition : Nat) (lines : List String) : LargeState α :=
  lines.enum.foldl (largeStep interval decode startPosition) ⟨[], 0, []⟩

/-- Per-line policy of the small-file line branch: strip; keep the line
when it is truthy, is not a bare comma, and does not start with an array
bracket; strip one trailing comma; then attempt the decode, a failure
yielding nothing. -/
def parse_small_line (decode : String → Option α) (line : String) : Option α :=
  let l := pyStrip line
  if pyTruthy l && !(l == commaS) && !(pyStartsWith l lBracketS) && !(pyStartsWith l rBracketS) then
    decode (stripTrailingComma l)
  else none

/-- The small-file line branch over a list of lines: malformed lines are
dropped and every surviving line contributes one record. -/
def parse_small_lines (decode : String → Option α) (lines : List String) : List α :=
  lines.filterMap (parse_small_line decode)

/-- Test of the small-file whole-content branch: the source takes it
exactly when the stripped content starts with an opening bracket and ends
with a closing bracket. -/
def bracketShaped (content : String) : Bool :=
  pyStartsWith content lBracketS && pyEndsWith content rBracketS

/-- Embedding of the small-file branch of parse_json_file_with_bookmark:
bracket-shaped content is decoded as one whole JSON array, and a decode
failure there escapes to the caller's exception handler, failing the unit
(none); all other content goes through the line-by-line policy.  The
whole-array decoder decodeArr and the per-line decoder decode embed the
json library. -/
def parse_json_file_small (decodeArr : String → Option (List α))
    (decode : String → Option α) (raw : String) : Option (List α) :=
  let content := pyStrip raw
  if bracketShaped content then
    match decodeArr content with
    | some pkgs => some pkgs
    | none => none
  else some (parse_small_lines decode (pySplit (Char.ofNat 10) content))

/-- Spec-side line skipping rule, modelled from the specification's words:
skip a line when, after trimming, it is solely a JSON-array delimiter or a
bare comma.  Named for comparison against the source's policy, which
skips on startswith instead. -/
def specSkipLine (line : String) : Bool :=
  let l := pyStrip line
  (l == emptyS) || (l == lBracketS) || (l == rBracketS) || (l == commaS)

/-- Amended-spec-side acceptance rule for a line of a unit: after
trimming, the line is truthy, is not a bare comma, does not begin with a
JSON-array delimiter, and, with one trailing comma stripped, decodes
successfully. -/
def acceptedLine (decode : String → Option α) (line : String) : Bool :=
  let l := pyStrip line
  if pyTruthy l && !(l == commaS) && !(pyStartsWith l lBracketS) && !(pyStartsWith l rBracketS) then
    (decode (stripTrailingComma l)).isSome
  else false

/-- The parse outcome of one unit as seen by the driver loop: either the
parsed package list (success True) or a parse failure (success False). -/
inductive FileOutcome where
  | success (packages : List Package)
  | failure
deriving DecidableEq

/-- The bookmark record of the ingestion module, with the fields its
loader initialises (timestamps omitted as pure presentation). -/
structure Bookmark where
  completed_ecosystems : List String
  completed_files : List String
  current_ecosystem : Option String
  current_file : Option String
  current_file_position : Nat
  total_processed : Nat
  total_saved : Nat
deriving DecidableEq

/-- The fresh bookmark created when nothing is persisted. -/
def freshBookmark : Bookmark := ⟨[], [], none, none, 0, 0, 0⟩

/-- The persisted bookmark file as the loader finds it: absent, present
but unreadable, or present with a value. -/
inductive PersistedBookmark where
  | absent
  | unreadable
  | present (b : Bookmark)

/-- Embedding of load_bookmark: a readable persisted bookmark is
returned; an absent or unreadable one yields the fresh bookmark (absence
is logged as information, not as an error). -/
def load_bookmark : PersistedBookmark → Bookmark
  | PersistedBookmark.present b => b
  | _ => freshBookmark

/-- Effect of one file of a group on the bookmark inside
process_ecosystem_with_bookmark: already completed files are skipped, a
failed parse leaves the bookmark unchanged (only counters local to the
run change), and a successful parse commits the packages and then appends
the file to completed_files, resetting the in-file position. -/
def processFileStep (eco : String) (bm : Bookmark) (pf : String × FileOutcome) : Bookmark :=
  if pf.1 ∈ bm.completed_files then bm
  else
    match pf.2 with
    | FileOutcome.failure => bm
    | FileOutcome.success pkgs =>
      let saved := (save_packages_to_db eco pkgs).length
      { bm with
        completed_files := bm.completed_files ++ [pf.1]
        total_processed := bm.total_processed + pkgs.length
        total_saved := bm.total_saved + saved
        current_file_position := 0 }

/-- Embedding of process_ecosystem_with_bookmark: a completed ecosystem
is skipped whole; otherwise every file is processed in order and then the
ecosystem is appended to completed_ecosystems, unconditionally. -/
def process_ecosystem_with_bookmark (eco : String) (files : List (String × FileOutcome))
    (bm : Bookmark) : Bookmark :=
  if eco ∈ bm.completed_ecosystems then bm
  else
    let bm1 := files.foldl (processFileStep eco) bm
    { bm1 with completed_ecosystems := bm1.completed_ecosystems ++ [eco] }

/-- Outcome of one uninterrupted invocation of the driver's main
function: the final bookmark and whether the bookmark file was deleted at
the end. -/
structure RunResult where
  bookmark : Bookmark
  bookmarkDeleted : Bool

/-- Embedding of the uninterrupted path of main: with no discovered
files the run returns early and the bookmark file survives; otherwise
every ecosystem is processed (per-ecosystem exceptions are swallowed by
the continue branch) and the bookmark file is then removed. -/
def mainRun (ecosystems : List (String × List (String × FileOutcome)))
    (bm : Bookmark) : RunResult :=
  if ecosystems.isEmpty then ⟨bm, false⟩
  else
    ⟨ecosystems.foldl (fun b ef => process_ecosystem_with_bookmark ef.1 ef.2 b) bm, true⟩

end EcosystemParser

namespace Npm

/-- Rows fetched per call of the listing endpoint in npm.py. -/
def PAGE_LIMIT : Nat := 10000

/-- Lexicographic comparison of character lists by code point, embedding
the ordering of the listing endpoint's keys. -/
def charListLe : List Char → List Char → Bool
  | [], _ => true
  | _ :: _, [] => false
  | a :: as, b :: bs =>
    if a.toNat < b.toNat then true
    else if b.toNat < a.toNat then false
    else charListLe as bs

/-- Key ordering used by the listing endpoint. -/
def keyLe (a b : String) : Bool := charListLe a.data b.data

/-- Embedding of fetch_page against a CouchDB style all-docs listing: the
db is the ordered key list; with no startkey the first limit rows are
returned, with a startkey the first limit rows whose key is greater than
or equal to the startkey are returned — the startkey row itself is
included, as the source's own comment notes. -/
def fetch_page (db : List String) (limit : Nat) (startkey : Option String) : List String :=
  (match startkey with
   | none => db
   | some k => db.filter (fun n => keyLe k n)).take limit

/-- State of the collection loop of npm.py's main: the lines of the
output file written so far and the startkey for the next page. -/
structure NpmState where
  outFile : List String
  startkey : Option String
  stopped : Bool
deriving DecidableEq

/-- Embedding of the resume logic of main: when the output file exists
and its last line strips to something truthy, that line becomes the
startkey (json encoding and decoding of the key cancel out). -/
def resumeStart (outFile : List String) : Option String :=
  match outFile.getLast? with
  | none => none
  | some last =>
    let l := pyStrip last
    if pyTruthy l then some l else none

/-- The initial loop state of main for a given pre-existing output file. -/
def initNpmState (outFile : List String) : NpmState :=
  ⟨outFile, resumeStart outFile, false⟩

/-- One iteration of the while loop of main: fetch a page; an empty page
stops the loop; otherwise every row of the page is appended to the output
file and the last row's key becomes the next startkey. -/
def npmStep (db : List String) (limit : Nat) (st : NpmState) : NpmState :=
  if st.stopped then st
  else
    let rows := fetch_page db limit st.startkey
    if rows.isEmpty then { st with stopped := true }
    else ⟨st.outFile ++ rows, rows.getLast?, false⟩

/-- The collection loop run for a bounded number of iterations. -/
def npmRun (db : List String) (limit : Nat) : Nat → NpmState → NpmState
  | 0, st => st
  | n + 1, st => npmRun db limit n (npmStep db limit st)

end Npm

namespace NpmPlus

/-- Worker bound of the fetching pool in npm_plus.py. -/
def MAX_WORKERS : Nat := 40

/-- Retry budget installed on the session adapter. -/
def RETRY_TOTAL : Nat := 5

/-- Backoff factor installed on the session adapter. -/
def BACKOFF_FACTOR : ℚ := 1 / 2

/-- Status codes the installed retry policy treats as retryable. -/
def STATUS_FORCELIST : List Nat := [429, 500, 502, 504]

/-- Outcome of one HTTP attempt: a response with a status code, or a
connection error. -/
inductive Attempt where
  | status (code : Nat)
  | connError
deriving DecidableEq

/-- Result of a session get once the mounted retry policy is done:
either a response escaped to the caller, or the retry budget was
exhausted (surfacing as a request exception). -/
inductive FetchResult where
  | response (code : Nat)
  | exhausted
deriving DecidableEq

/-- Embedding of the urllib3 retry loop the source mounts on its session:
a response whose status is in the forcelist, or a connection error, is
retried while budget remains, sleeping factor times two to the power of
the number of previous retries before each retry; any other response is
returned at once.  Returns the final result, the number of requests
made, and the backoff sleeps performed. -/
def retryLoopAux (forcelist : List Nat) (factor : ℚ) :
    Nat → Nat → List Attempt → FetchResult × Nat × List ℚ
  | _, _, [] => (FetchResult.exhausted, 0, [])
  | remaining, used, a :: rest =>
    match a with
    | Attempt.status c =>
      if c ∈ forcelist then
        match remaining with
        | 0 => (FetchResult.exhausted, 1, [])
        | r + 1 =>
          let out := retryLoopAux forcelist factor r (used + 1) rest
          (out.1, out.2.1 + 1, factor * 2 ^ used :: out.2.2)
      else (FetchResult.response c, 1, [])
    | Attempt.connError =>
      match remaining with
      | 0 => (FetchResult.exhausted, 1, [])
      | r + 1 =>
        let out := retryLoopAux forcelist factor r (used + 1) rest
        (out.1, out.2.1 + 1, factor * 2 ^ used :: out.2.2)

/-- A session get with the configuration npm_plus.py installs. -/
def sessionGet (attempts : List Attempt) : FetchResult × Nat × List ℚ :=
  retryLoopAux STATUS_FORCELIST BACKOFF_FACTOR RETRY_TOTAL 0 attempts

/-- The error message fetch_meta stores for a 404. -/
def notFoundMsg : String := "Package not found"

/-- The error message fetch_meta stores when no latest tag exists. -/
def noLatestMsg : String := "No latest version found"

/-- The error type main logs for a raised HTTPError. -/
def httpErrorMsg : String := "HTTP Error"

/-- The error type main logs for a raised RequestException. -/
def requestExceptionMsg : String := "Request Exception"

/-- What one fetched item produces as seen by main's collection loop: an
error record returned as data (the 404 convention and the missing latest
tag), a successful metadata value, a raised HTTPError, or a raised
RequestException. -/
inductive Outcome (β : Type) where
  | errorRecord (name msg : String) (statusCode : Option Nat)
  | meta (name : String) (m : β)
  | httpError (name : String) (code : Nat)
  | requestException (name : String)
deriving DecidableEq

/-- Embedding of fetch_meta: a 404 response becomes an error record
instead of an exception; any other error status raises through
raise_for_status; an exhausted retry budget raises a RequestException;
otherwise the body either lacks a latest tag (an error record) or yields
the metadata.  The decoded body is a parameter, being external data. -/
def fetch_meta (name : String) (attempts : List Attempt) (bodyLatest : Option β) : Outcome β :=
  match (sessionGet attempts).1 with
  | FetchResult.exhausted => Outcome.requestException name
  | FetchResult.response code =>
    if code = 404 then Outcome.errorRecord name notFoundMsg (some 404)
    else if 400 ≤ code then Outcome.httpError name code
    else
      match bodyLatest with
      | none => Outcome.errorRecord name noLatestMsg none
      | some m => Outcome.meta name m

/-- State of main's per-chunk collection loop: successful metadata
gathered for the chunk file, and the rows appended to the error log. -/
structure ChunkState (β : Type) where
  results : List β
  errorLog : List (String × String)
deriving DecidableEq

/-- Embedding of log_error: append one row to the error log. -/
def log_error (st : ChunkState β) (nm msg : String) : ChunkState β :=
  { st with errorLog := st.errorLog ++ [(nm, msg)] }

/-- How main's loop handles one completed future: error records and both
exception kinds are logged and the loop continues; successes are
collected. -/
def handleResult (st : ChunkState β) (o : Outcome β) : ChunkState β :=
  match o with
  | Outcome.errorRecord nm msg _ => log_error st nm msg
  | Outcome.meta _ m => { st with results := st.results ++ [m] }
  | Outcome.httpError nm _ => log_error st nm httpErrorMsg
  | Outcome.requestException nm => log_error st nm requestExceptionMsg

/-- Embedding of main's collection loop over one chunk: every item is an
item name with its attempt outcomes and decoded body, and every item is
handled exactly once, in completion order. -/
def processChunk (items : List (String × List Attempt × Option β)) : ChunkState β :=
  items.foldl (fun st it => handleResult st (fetch_meta it.1 it.2.1 it.2.2)) ⟨[], []⟩

/-- One record of a previously written output artifact: the name key and
the error key are each present or absent. -/
structure OutItem where
  name : Option String
  error : Option String
deriving DecidableEq

/-- The name contributed by one artifact record: present exactly when the
record has a name key and no error key. -/
def itemProcessedName (it : OutItem) : Option String :=
  match it.name, it.error with
  | some n, none => some n
  | _, _ => none

/-- Names extracted from the previously written output artifacts; an
artifact that fails to read or decode (none) is skipped whole. -/
def successNames (artifacts : List (Option (List OutItem))) : List String :=
  ((artifacts.filterMap id).flatten).filterMap itemProcessedName

/-- Names extracted from the persisted error log: the first row is the
header and is skipped, and every remaining row with at least two columns
contributes its second column. -/
def errorLogNames (logRows : List (List String)) : List String :=
  (logRows.drop 1).filterMap (fun row => if 2 ≤ row.length then row.get? 1 else none)

/-- Embedding of load_processed_names: the union of the names found in
successful artifacts without an error marker and every name recorded in
the error log. -/
def load_processed_names (artifacts : List (Option (List OutItem)))
    (logRows : List (List String)) : List String :=
  successNames artifacts ++ errorLogNames logRows

/-- Embedding of the filter in main that builds names_to_process: keep
exactly the names not in the processed set. -/
def names_to_process (allNames processed : List String) : List String :=
  allNames.filter (fun nm => !(processed.contains nm))

end NpmPlus

namespace OssCraw

/-- State of the bounded submission loop of crawl_until_empty_parallel:
the pages currently in flight (the submitted futures), the next page
number to submit, the stop flag raised by an empty page, and the pages
already collected. -/
structure PoolState where
  submitted : List Nat
  nextPage : Nat
  stop : Bool
  pagesDone : List Nat
deriving DecidableEq

/-- The initial submissions: the loop submits exactly concurrency pages,
starting at the start page, before waiting for completions. -/
def initPool (startPage concurrency : Nat) : PoolState :=
  ⟨List.range' startPage concurrency, startPage + concurrency, false, []⟩

/-- Handling of one completed future for page p: the future is removed
from the in-flight set, its page is recorded, an empty page raises the
stop flag, and only when the flag is down is exactly one new page
submitted in its place. -/
def completeOne (pageHasResults : Nat → Bool) (st : PoolState) (p : Nat) : PoolState :=
  if p ∈ st.submitted then
    let submitted := st.submitted.erase p
    let pagesDone := st.pagesDone ++ [p]
    let stop := st.stop || !(pageHasResults p)
    if stop then ⟨submitted, st.nextPage, stop, pagesDone⟩
    else ⟨submitted ++ [st.nextPage], st.nextPage + 1, stop, pagesDone⟩
  else st

/-- The submission loop driven by an arbitrary completion order: every
reachable state of crawl_until_empty_parallel is the fold of some
completion sequence. -/
def runPool (pageHasResults : Nat → Bool) (startPage concurrency : Nat)
    (completions : List Nat) : PoolState :=
  completions.foldl (completeOne pageHasResults) (initPool startPage concurrency)

end OssCraw

namespace EcosystemParser

/-- A concrete line that is valid JSON (a two-element array) but begins
with an opening bracket. -/
def arrLine : String := "[1, 2]"

/-- A concrete decoder under which arrLine is valid JSON, embedding what
the json library does on that line. -/
def arrDecode : String → Option Nat := fun s => if s = arrLine then some 0 else none

/-- Concrete small-unit content that is bracket shaped but malformed. -/
def badArr : String := "[oops]"

/-- A whole-array decoder that fails on every content, embedding the json
library on malformed array content. -/
def noDecArr : String → Option (List Nat) := fun _ => none

/-- A per-line decoder that fails on every line. -/
def noDec : String → Option Nat := fun _ => none

/-- A whole-array decoder that succeeds on the concrete content badArr. -/
def okArrDecode : String → Option (List Nat) := fun s => if s = badArr then some [7] else none

/-- The npm ecosystem name as a concrete group identifier. -/
def npmEco : String := "npm"

/-- A concrete unit (file path) identifier. -/
def fileOne : String := "f1"

/-- A concrete package name. -/
def pkgNameP : String := "p"

/-- A concrete version string. -/
def verOne : String := "1"

end EcosystemParser

namespace Npm

/-- Concrete registry key. -/
def keyA : String := "a"

/-- Concrete registry key. -/
def keyB : String := "b"

/-- Concrete registry key. -/
def keyC : String := "c"

/-- Concrete registry key. -/
def keyD : String := "d"

end Npm

namespace NpmPlus

/-- A concrete package name found in a successful artifact. -/
def nameA : String := "alpha"

/-- A concrete package name recorded in the error log. -/
def nameB : String := "beta"

/-- A concrete package name not yet processed. -/
def nameC : String := "gamma"

/-- A concrete timestamp column value. -/
def tsS : String := "ts"

/-- A concrete header column value. -/
def hdrS : String := "timestamp"

/-- Concrete previously written artifacts: one successful record and one
unreadable artifact file. -/
def artifactsC : List (Option (List OutItem)) := [some [⟨some nameA, none⟩], none]

/-- A concrete persisted error log: a header row and one failure row. -/
def logRowsC : List (List String) := [[hdrS, hdrS], [tsS, nameB]]

end NpmPlus

namespace EcosystemParser

/-- The two effects of one automatic flush, in the order the source emits
them: bookmark save first, batch commit second. -/
def pairEvents (pb : Nat × List α) : List (Event α) :=
  [Event.saveBookmark pb.1, Event.commitBatch pb.2]

/-- A trace that is a concatenation of flush pairs, each a bookmark save
immediately followed by its batch commit. -/
def PairedTrace (t : List (Event α)) : Prop :=
  ∃ pairs : List (Nat × List α), t = (pairs.map pairEvents).flatten

end EcosystemParser

namespace EcosystemParser

lemma pairedTrace_nil : PairedTrace ([] : List (Event α)) := ⟨[], rfl⟩

lemma pairedTrace_append_pair {t : List (Event α)} (p : Nat) (b : List α)
    (h : PairedTrace t) :
    PairedTrace (t ++ [Event.saveBookmark p, Event.commitBatch b]) := by
  obtain ⟨pairs, rfl⟩ := h
  refine ⟨pairs ++ [(p, b)], ?_⟩
  simp [pairEvents, List.map_append, List.flatten_append]

lemma flushAt_paired {st : LargeState α} (i : Nat) (hne : st.packages ≠ [])
    (h : PairedTrace st.trace) : PairedTrace (flushAt i st).trace := by
  simp only [flushAt]
  cases hp : st.packages with
  | nil => exact absurd hp hne
  | cons a l =>
    simp only [hp, List.isEmpty_cons, Bool.false_eq_true, if_false]
    rw [List.append_assoc]
    exact pairedTrace_append_pair _ _ h

lemma largeStep_paired (interval : Nat) (decode : String → Option α) (startPosition : Nat)
    (st : LargeState α) (x : Nat × String) (h : PairedTrace st.trace) :
    PairedTrace (largeStep interval decode startPosition st x).trace := by
  simp only [largeStep]
  split
  · exact h
  · split
    · split
      · exact h
      · split
        · exact flushAt_paired _ (by simp) h
        · exact h
    · exact h

/-- Claim C1: the claim states that at every batch flush the data commit
happens before the bookmark save; the source performs the reverse order,
and this theorem proves it: every effect trace of the large-file loop is
a concatenation of pairs in which the bookmark save (recording a position
past the buffered records) strictly precedes the commit of those records
to the store. -/
theorem c1_checkpoint_saved_before_batch_commit {α : Type} (interval : Nat)
    (decode : String → Option α) (startPosition : Nat) (lines : List String) :
    ∃ pairs : List (Nat × List α),
      (parse_json_file_large interval decode startPosition lines).trace
        = (pairs.map pairEvents).flatten := by
  have key : ∀ (xs : List (Nat × String)) (st : LargeState α), PairedTrace st.trace →
      PairedTrace (xs.foldl (largeStep interval decode startPosition) st).trace := by
    intro xs
    induction xs with
    | nil => intro st h; exact h
    | cons x xs ih =>
      intro st h
      exact ih _ (largeStep_paired interval decode startPosition st x h)
  exact key lines.enum ⟨[], 0, []⟩ pairedTrace_nil

lemma parse_small_line_isSome (decode : String → Option α) (l : String) :
    (parse_small_line decode l).isSome = acceptedLine decode l := by
  simp only [parse_small_line, acceptedLine]
  split
  · rfl
  · rfl

/-- Claim C4 (amended): parsing a unit under the line policy yields
exactly one record per accepted line — trimmed, truthy, not a bare comma,
not beginning with an array delimiter, decoding after one trailing comma
is stripped — and the remaining lines are all skipped, nothing being
fatal. -/
theorem c4_malformed_line_tolerance {α : Type} (decode : String → Option α)
    (lines : List String) :
    (parse_small_lines decode lines).length = lines.countP (acceptedLine decode) ∧
    lines.countP (acceptedLine decode)
      + lines.countP (fun l => !(acceptedLine decode l)) = lines.length := by
  constructor
  · induction lines with
    | nil => rfl
    | cons l ls ih =>
      rw [parse_small_lines, List.filterMap_cons]
      cases hl : parse_small_line decode l with
      | none =>
        have ha : acceptedLine decode l = false := by
          rw [← parse_small_line_isSome, hl]; rfl
        rw [List.countP_cons, ha]
        simpa [parse_small_lines] using ih
      | some v =>
        have ha : acceptedLine decode l = true := by
          rw [← parse_small_line_isSome, hl]; rfl
        rw [List.countP_cons, ha]
        simp only [List.length_cons, if_true]
        rw [parse_small_lines] at ih
        omega
  · induction lines with
    | nil => rfl
    | cons l ls ih =>
      rw [List.countP_cons, List.countP_cons, List.length_cons]
      cases ha : acceptedLine decode l <;> simp [ha] <;> omega

/-- Claim C4 (counterexample): the single line consisting of the valid
JSON array text arrLine is, after trimming, not solely an array delimiter
nor a bare comma, and it decodes successfully once the policy
normalisation is applied; the specification therefore counts it as a
valid record line, yet the source yields no record for the unit made of
it, because the source skips every line that merely starts with a
bracket. -/
theorem c4_counterexample :
    parse_small_lines arrDecode [arrLine] = [] ∧
    specSkipLine arrLine = false ∧
    arrDecode (stripTrailingComma (pyStrip arrLine)) = some 0 := by decide

/-- Claim C6 (amended): for a small unit, when the stripped content
starts with an opening bracket and ends with a closing bracket the whole
content is decoded as a single JSON array — a success yields exactly the
decoded records and a decode failure fails the unit as a whole — and only
content not of that shape is parsed line by line under the per-line
policy; there is no whole-decode-then-line-by-line fallback. -/
theorem c6_small_unit_dispatch {α : Type} (decodeArr : String → Option (List α))
    (decode : String → Option α) (raw : String) :
    (bracketShaped (pyStrip raw) = true →
      (∀ pkgs, decodeArr (pyStrip raw) = some pkgs →
        parse_json_file_small decodeArr decode raw = some pkgs) ∧
      (decodeArr (pyStrip raw) = none →
        parse_json_file_small decodeArr decode raw = none)) ∧
    (bracketShaped (pyStrip raw) = false →
      parse_json_file_small decodeArr decode raw
        = some (parse_small_lines decode (pySplit (Char.ofNat 10) (pyStrip raw)))) := by
  refine ⟨fun hb => ⟨fun pkgs hp => ?_, fun hp => ?_⟩, fun hb => ?_⟩
  · simp [parse_json_file_small, hb, hp]
  · simp [parse_json_file_small, hb, hp]
  · simp [parse_json_file_small, hb]

/-- Claim C6 (witness): on the concrete bracket-shaped content badArr
with a succeeding whole-array decoder, the unit parses to exactly the
decoded array. -/
theorem c6_small_unit_dispatch_witness :
    parse_json_file_small okArrDecode noDec badArr = some [7] := by
  have h := (c6_small_unit_dispatch okArrDecode noDec badArr).1 (by decide)
  exact h.1 [7] (by decide)

/-- Claim C6 (counterexample): the concrete small unit badArr is bracket
shaped and its whole-content decode fails; the claim says it is then
re-parsed line by line (which would succeed with an empty record list),
but the source fails the unit as a whole. -/
theorem c6_counterexample :
    bracketShaped (pyStrip badArr) = true ∧
    noDecArr (pyStrip badArr) = none ∧
    parse_json_file_small noDecArr noDec badArr = none ∧
    some (parse_small_lines noDec (pySplit (Char.ofNat 10) (pyStrip badArr)))
      ≠ parse_json_file_small noDecArr noDec badArr := by decide

end EcosystemParser

namespace EcosystemParser

lemma foldl_processFileStep_ecosystems (eco : String)
    (files : List (String × FileOutcome)) (bm : Bookmark) :
    (files.foldl (processFileStep eco) bm).completed_ecosystems
      = bm.completed_ecosystems := by
  induction files generalizing bm with
  | nil => rfl
  | cons f fs ih =>
    rw [List.foldl_cons, ih]
    simp only [processFileStep]
    split
    · rfl
    · split
      · rfl
      · rfl

lemma foldl_processFileStep_files (eco : String) (files : List (String × FileOutcome))
    (bm : Bookmark) (p : String)
    (h : p ∈ (files.foldl (processFileStep eco) bm).completed_files) :
    p ∈ bm.completed_files ∨ ∃ pkgs, (p, FileOutcome.success pkgs) ∈ files := by
  induction files generalizing bm with
  | nil => exact Or.inl h
  | cons f fs ih =>
    rw [List.foldl_cons] at h
    rcases ih (processFileStep eco bm f) h with h1 | ⟨pkgs, hp⟩
    · obtain ⟨q, out⟩ := f
      by_cases hq : q ∈ bm.completed_files
      · simp only [processFileStep, hq, if_true] at h1
        exact Or.inl h1
      · cases out with
        | failure =>
          simp only [processFileStep, hq, if_false] at h1
          exact Or.inl h1
        | success pkgs =>
          simp only [processFileStep, hq, if_false] at h1
          rcases List.mem_append.mp h1 with h2 | h2
          · exact Or.inl h2
          · have hpq : p = q := by simpa using h2
            subst hpq
            exact Or.inr ⟨pkgs, List.mem_cons_self _ _⟩
    · exact Or.inr ⟨pkgs, List.mem_cons_of_mem _ hp⟩

/-- Claim C7 (amended): once a not yet completed group is processed, the
group is appended to completed_ecosystems unconditionally — after all its
units have been visited, whether or not some of them failed — while a unit
is appended to completed_files only when its parse succeeded; so failed
units stay unmarked, but their group is still marked completed. -/
theorem c7_group_completion (eco : String) (files : List (String × FileOutcome))
    (bm : Bookmark) (h : eco ∉ bm.completed_ecosystems) :
    (process_ecosystem_with_bookmark eco files bm).completed_ecosystems
      = bm.completed_ecosystems ++ [eco] ∧
    ∀ p, p ∉ bm.completed_files →
      p ∈ (process_ecosystem_with_bookmark eco files bm).completed_files →
      ∃ pkgs, (p, FileOutcome.success pkgs) ∈ files := by
  rw [process_ecosystem_with_bookmark, if_neg h]
  constructor
  · simp [foldl_processFileStep_ecosystems]
  · intro p hp hmem
    rcases foldl_processFileStep_files eco files bm p hmem with h1 | h2
    · exact absurd h1 hp
    · exact h2

/-- Claim C7 (witness): processing the npm group whose single file fails
still appends npm to completed_ecosystems. -/
theorem c7_group_completion_witness :
    (process_ecosystem_with_bookmark npmEco [(fileOne, FileOutcome.failure)]
        freshBookmark).completed_ecosystems = [npmEco] := by
  have h := (c7_group_completion npmEco [(fileOne, FileOutcome.failure)]
      freshBookmark (by decide)).1
  exact h

/-- Claim C7 (counterexample): a group containing one unit whose parse
fails is nevertheless appended to completed_ecosystems, while the failed
unit itself is not in completed_files; the claim says a group in which a
failure occurred is not marked completed. -/
theorem c7_counterexample :
    npmEco ∈ (process_ecosystem_with_bookmark npmEco [(fileOne, FileOutcome.failure)]
        freshBookmark).completed_ecosystems ∧
    fileOne ∉ (process_ecosystem_with_bookmark npmEco [(fileOne, FileOutcome.failure)]
        freshBookmark).completed_files := by decide

/-- Claim C8 (amended): loading with no persisted bookmark yields the
fresh empty bookmark (absence means start fresh, not an error), and the
persisted bookmark file is deleted whenever an uninterrupted run over a
nonempty set of discovered groups reaches its end — regardless of whether
units failed along the way. -/
theorem c8_load_fresh_and_delete :
    load_bookmark PersistedBookmark.absent = freshBookmark ∧
    ∀ (ecosystems : List (String × List (String × FileOutcome))) (bm : Bookmark),
      ecosystems ≠ [] → (mainRun ecosystems bm).bookmarkDeleted = true := by
  refine ⟨rfl, fun ecosystems bm hne => ?_⟩
  cases ecosystems with
  | nil => exact absurd rfl hne
  | cons e es => rfl

/-- Claim C8 (witness): an uninterrupted run over one group deletes the
bookmark file. -/
theorem c8_load_fresh_and_delete_witness :
    (mainRun [(npmEco, [(fileOne, FileOutcome.failure)])]
        freshBookmark).bookmarkDeleted = true :=
  c8_load_fresh_and_delete.2 [(npmEco, [(fileOne, FileOutcome.failure)])]
    freshBookmark (by decide)

/-- Claim C8 (counterexample): a run whose only unit fails to parse still
ends with the bookmark file deleted, although that unit was never
completed; the claim says the checkpoint is deleted only when all work is
completed with nothing failed or remaining. -/
theorem c8_counterexample :
    (mainRun [(npmEco, [(fileOne, FileOutcome.failure)])]
        freshBookmark).bookmarkDeleted = true ∧
    fileOne ∉ (mainRun [(npmEco, [(fileOne, FileOutcome.failure)])]
        freshBookmark).bookmark.completed_files := by decide

lemma savePackage_eq_some {eco : String} {pkg : Package} {entry : PkgRow × List String}
    (h : savePackage eco pkg = some entry) :
    pyStrip (pkg.Name.getD emptyS) ≠ emptyS ∧ pkg.Versions ≠ [] ∧
    entry.2 = versionData pkg.Versions := by
  simp only [savePackage] at h
  split at h
  · exact Option.noConfusion h
  · rename_i hcond
    push_neg at hcond
    split at h
    · split at h
      · injection h with h2
        exact ⟨hcond.1, hcond.2, by rw [← h2]⟩
      · exact Option.noConfusion h
    · injection h with h2
      exact ⟨hcond.1, hcond.2, by rw [← h2]⟩

lemma versionData_bounds {versions : List String} {v : String}
    (h : v ∈ versionData versions) :
    v.length ≤ 500 ∧
    ∃ v0 ∈ versions, pyTruthy (pyStrip v0) = true ∧ v = takeChars 500 v0 := by
  simp only [versionData, List.mem_map, List.mem_filter] at h
  obtain ⟨v0, ⟨hv0, hcond⟩, hveq⟩ := h
  rw [Bool.and_eq_true] at hcond
  constructor
  · rw [← hveq]
    show (v0.data.take 500).length ≤ 500
    rw [List.length_take]
    exact min_le_left _ _
  · exact ⟨v0, hv0, hcond.2, hveq.symm⟩

/-- Claim C10: every row committed by save_packages_to_db stores only
version strings of at most 500 characters, each originating from a
version of the package that is truthy and does not strip to whitespace
(blank versions are dropped before insertion), and every committed row
comes from a package whose stripped name is nonempty and whose version
list is nonempty — a package with an empty name or an empty version list
produces no write at all. -/
theorem c10_sink_write_shape (eco : String) (pkgs : List Package) :
    (∀ entry ∈ save_packages_to_db eco pkgs,
      (∀ v ∈ entry.2, v.length ≤ 500 ∧
        ∃ v0 ∈ (entry.1, entry.2).2, v = v0) ∧
      ∃ pkg ∈ pkgs, pyStrip (pkg.Name.getD emptyS) ≠ emptyS ∧ pkg.Versions ≠ [] ∧
        entry.2 = versionData pkg.Versions) ∧
    (∀ pkg : Package, pyStrip (pkg.Name.getD emptyS) = emptyS ∨ pkg.Versions = [] →
      savePackage eco pkg = none) := by
  constructor
  · intro entry hmem
    rw [save_packages_to_db] at hmem
    split at hmem
    · exact absurd hmem (List.not_mem_nil _)
    · obtain ⟨pkg, hpkg, hsave⟩ := List.mem_filterMap.mp hmem
      obtain ⟨hname, hver, heq⟩ := savePackage_eq_some hsave
      refine ⟨fun v hv => ⟨?_, v, hv, rfl⟩, pkg, hpkg, hname, hver, heq⟩
      rw [heq] at hv
      exact (versionData_bounds hv).1
  · intro pkg hcond
    simp only [savePackage]
    rw [if_pos hcond]

/-- Claim C10 (witness): the concrete npm package with name p and version
1 is written as a plain row whose stored version is short. -/
theorem c10_sink_write_shape_witness : verOne.length ≤ 500 :=
  (((c10_sink_write_shape npmEco [⟨some pkgNameP, [verOne]⟩]).1
      (PkgRow.plain pkgNameP, [verOne]) (by decide)).1 verOne (by decide)).1

end EcosystemParser

namespace Npm

/-- Claim C2 (failing run): the collection loop of npm.py, resumed with
the output file already holding the committed keys a and b, uses b as the
inclusive startkey, appends the fetched page without removing the
duplicate row, and so emits and commits the already committed key b a
second time. -/
theorem c2_resume_reemits_committed_record :
    (npmRun [keyA, keyB, keyC, keyD] 2 1 (initNpmState [keyA, keyB])).outFile
      = [keyA, keyB, keyB, keyC] ∧
    (npmRun [keyA, keyB, keyC, keyD] 2 1 (initNpmState [keyA, keyB])).outFile.count keyB
      = 2 ∧
    keyB ∈ [keyA, keyB] := by decide

end Npm

namespace OssCraw

lemma completeOne_submitted_le (f : Nat → Bool) (st : PoolState) (p : Nat) :
    (completeOne f st p).submitted.length ≤ st.submitted.length := by
  simp only [completeOne]
  split
  · rename_i hp
    have he : (st.submitted.erase p).length = st.submitted.length - 1 :=
      List.length_erase_of_mem hp
    have hpos : 0 < st.submitted.length := List.length_pos_of_mem hp
    split
    · rw [he]
      omega
    · simp only [List.length_append, List.length_singleton, he]
      omega
  · exact Nat.le_refl _

/-- Claim C9: with the submission loop of crawl_until_empty_parallel run
at concurrency k, the number of in-flight submitted operations never
exceeds k in any reachable state, however long the completion sequence —
each completion removes one future and submits at most one new page. -/
theorem c9_bounded_inflight (pageHasResults : Nat → Bool)
    (startPage concurrency : Nat) (completions : List Nat) :
    (runPool pageHasResults startPage concurrency completions).submitted.length
      ≤ concurrency := by
  have key : ∀ (cs : List Nat) (st : PoolState), st.submitted.length ≤ concurrency →
      (cs.foldl (completeOne pageHasResults) st).submitted.length ≤ concurrency := by
    intro cs
    induction cs with
    | nil => intro st h; exact h
    | cons c cs ih =>
      intro st h
      exact ih _ (Nat.le_trans (completeOne_submitted_le pageHasResults st c) h)
  have hinit : (initPool startPage concurrency).submitted.length ≤ concurrency := by
    simp [initPool]
  exact key completions _ hinit

end OssCraw

namespace NpmPlus

lemma itemProcessedName_eq_some (it : OutItem) (n : String) :
    itemProcessedName it = some n ↔ it.name = some n ∧ it.error = none := by
  obtain ⟨nm, er⟩ := it
  cases nm <;> cases er <;> simp [itemProcessedName]

lemma mem_successNames {artifacts : List (Option (List OutItem))} {n : String} :
    n ∈ successNames artifacts ↔
      ∃ items, (some items) ∈ artifacts ∧
        ∃ it ∈ items, it.name = some n ∧ it.error = none := by
  constructor
  · intro h
    obtain ⟨it, hit, hname⟩ := List.mem_filterMap.mp h
    obtain ⟨items, hitems, hin⟩ := List.mem_flatten.mp hit
    obtain ⟨a, ha, haeq⟩ := List.mem_filterMap.mp hitems
    rw [id] at haeq
    subst haeq
    exact ⟨items, ha, it, hin, (itemProcessedName_eq_some it n).mp hname⟩
  · rintro ⟨items, hitems, it, hin, hname, herr⟩
    refine List.mem_filterMap.mpr ⟨it, ?_, ?_⟩
    · exact List.mem_flatten.mpr ⟨items, List.mem_filterMap.mpr ⟨some items, hitems, rfl⟩, hin⟩
    · exact (itemProcessedName_eq_some it n).mpr ⟨hname, herr⟩

lemma mem_errorLogNames {logRows : List (List String)} {n : String} :
    n ∈ errorLogNames logRows ↔
      ∃ row ∈ logRows.drop 1, 2 ≤ row.length ∧ row.get? 1 = some n := by
  constructor
  · intro h
    obtain ⟨row, hrow, hif⟩ := List.mem_filterMap.mp h
    by_cases h2 : 2 ≤ row.length
    · rw [if_pos h2] at hif
      exact ⟨row, hrow, h2, hif⟩
    · rw [if_neg h2] at hif
      exact Option.noConfusion hif
  · rintro ⟨row, hrow, h2, hget⟩
    exact List.mem_filterMap.mpr ⟨row, hrow, by rw [if_pos h2]; exact hget⟩

/-- Claim C3: the completion index built by load_processed_names holds a
name exactly when the name appears in a readable previously written
artifact as a record with a name key and no error key, or in some row of
the persisted error log past the header with at least two columns; and a
name in the index is never in names_to_process, the list submitted to the
pool — npm_plus.py has no notion of completed units gating this skip. -/
theorem c3_completion_index_union_and_skip (artifacts : List (Option (List OutItem)))
    (logRows : List (List String)) (allNames : List String) (n : String) :
    (n ∈ load_processed_names artifacts logRows ↔
      ((∃ items, (some items) ∈ artifacts ∧
          ∃ it ∈ items, it.name = some n ∧ it.error = none) ∨
        ∃ row ∈ logRows.drop 1, 2 ≤ row.length ∧ row.get? 1 = some n)) ∧
    (n ∈ load_processed_names artifacts logRows →
      n ∉ names_to_process allNames (load_processed_names artifacts logRows)) := by
  constructor
  · rw [load_processed_names, List.mem_append, mem_successNames, mem_errorLogNames]
  · intro hmem hcontra
    rw [names_to_process, List.mem_filter] at hcontra
    have hc : (load_processed_names artifacts logRows).contains n = true :=
      List.elem_eq_true_of_mem hmem
    rw [hc] at hcontra
    exact Bool.noConfusion hcontra.2

/-- Claim C3 (witness): the concrete name from a successful artifact is
in the index and is filtered out of the to-do list; so is the name
recorded in the error log. -/
theorem c3_completion_index_union_and_skip_witness :
    nameA ∉ names_to_process [nameA, nameB, nameC]
        (load_processed_names artifactsC logRowsC) ∧
    nameB ∉ names_to_process [nameA, nameB, nameC]
        (load_processed_names artifactsC logRowsC) := by
  constructor
  · exact (c3_completion_index_union_and_skip artifactsC logRowsC
      [nameA, nameB, nameC] nameA).2 (by decide)
  · exact (c3_completion_index_union_and_skip artifactsC logRowsC
      [nameA, nameB, nameC] nameB).2 (by decide)

lemma retryLoopAux_requests_le (fl : List Nat) (f : ℚ) (attempts : List Attempt) :
    ∀ remaining used : Nat,
      (retryLoopAux fl f remaining used attempts).2.1 ≤ remaining + 1 := by
  induction attempts with
  | nil => intro r u; simp [retryLoopAux]
  | cons a rest ih =>
    intro r u
    cases a with
    | status c =>
      by_cases hc : c ∈ fl
      · cases r with
        | zero => simp [retryLoopAux, hc]
        | succ r1 =>
          have := ih r1 (u + 1)
          simp only [retryLoopAux, hc, if_true]
          omega
      · cases r <;> simp [retryLoopAux, hc]
    | connError =>
      cases r with
      | zero => simp [retryLoopAux]
      | succ r1 =>
        have := ih r1 (u + 1)
        simp only [retryLoopAux]
        omega

lemma retryLoopAux_sleep_shape (fl : List Nat) (f : ℚ) (attempts : List Attempt) :
    ∀ (remaining used j : Nat) (q : ℚ),
      (retryLoopAux fl f remaining used attempts).2.2.get? j = some q →
      q = f * 2 ^ (used + j) := by
  induction attempts with
  | nil => intro r u j q h; simp [retryLoopAux] at h
  | cons a rest ih =>
    intro r u j q h
    cases a with
    | status c =>
      by_cases hc : c ∈ fl
      · cases r with
        | zero =>
          simp only [retryLoopAux, hc, if_true] at h
          exact Option.noConfusion h
        | succ r1 =>
          simp only [retryLoopAux, hc, if_true] at h
          cases j with
          | zero =>
            injection h with h1
            rw [← h1, Nat.add_zero]
          | succ j1 =>
            have := ih r1 (u + 1) j1 q h
            rw [this]
            have hexp : u + 1 + j1 = u + (j1 + 1) := by omega
            rw [hexp]
      · cases r
        all_goals simp only [retryLoopAux, hc, if_false] at h
        all_goals exact Option.noConfusion h
    | connError =>
      cases r with
      | zero =>
        simp only [retryLoopAux] at h
        exact Option.noConfusion h
      | succ r1 =>
        simp only [retryLoopAux] at h
        cases j with
        | zero =>
          injection h with h1
          rw [← h1, Nat.add_zero]
        | succ j1 =>
          have := ih r1 (u + 1) j1 q h
          rw [this]
          have hexp : u + 1 + j1 = u + (j1 + 1) := by omega
          rw [hexp]

lemma retryLoopAux_made_pos (fl : List Nat) (f : ℚ) (a : Attempt) (rest : List Attempt)
    (remaining used : Nat) :
    1 ≤ (retryLoopAux fl f remaining used (a :: rest)).2.1 := by
  cases a with
  | status c =>
    by_cases hc : c ∈ fl
    · cases remaining with
      | zero => simp [retryLoopAux, hc]
      | succ r1 =>
        simp only [retryLoopAux, hc, if_true]
        omega
    · cases remaining <;> simp [retryLoopAux, hc]
  | connError =>
    cases remaining with
    | zero => simp [retryLoopAux]
    | succ r1 =>
      simp only [retryLoopAux]
      omega

lemma retryLoopAux_cons_retryable (fl : List Nat) (f : ℚ) (c : Nat) (hc : c ∈ fl)
    (r u : Nat) (rest : List Attempt) :
    (retryLoopAux fl f (r + 1) u (Attempt.status c :: rest)).2.1
      = (retryLoopAux fl f r (u + 1) rest).2.1 + 1 := by
  simp [retryLoopAux, hc]

lemma retryLoopAux_cons_conn (fl : List Nat) (f : ℚ) (r u : Nat) (rest : List Attempt) :
    (retryLoopAux fl f (r + 1) u (Attempt.connError :: rest)).2.1
      = (retryLoopAux fl f r (u + 1) rest).2.1 + 1 := by
  simp [retryLoopAux]

lemma processChunk_fold_total {β : Type} (items : List (String × List Attempt × Option β)) :
    ∀ st : ChunkState β,
      ((items.foldl (fun st it => handleResult st (fetch_meta it.1 it.2.1 it.2.2)) st).results.length
        + (items.foldl (fun st it => handleResult st (fetch_meta it.1 it.2.1 it.2.2)) st).errorLog.length)
      = st.results.length + st.errorLog.length + items.length := by
  induction items with
  | nil => intro st; simp
  | cons it rest ih =>
    intro st
    rw [List.foldl_cons]
    rw [ih (handleResult st (fetch_meta it.1 it.2.1 it.2.2))]
    cases h : fetch_meta it.1 it.2.1 it.2.2 <;>
      · simp only [handleResult, log_error, List.length_append, List.length_cons,
          List.length_singleton, List.length_nil]
        omega

/-- Claim C5: with the retry policy npm_plus.py installs on its session,
a response whose status is in the transient forcelist, and a connection
error, are each retried — a further request follows while attempts remain;
the number of requests for one item never exceeds the fixed ceiling of
six (five configured retries plus the first request); successive backoff
sleeps double, following the exponential schedule of the configured
factor; a 404 is answered on the very first request with an error record
— never retried — which main turns into an immediate failure-log append;
and every item of a chunk is handled exactly once, a failed item never
aborting the processing of the others. -/
theorem c5_retry_backoff_and_isolation :
    (∀ code ∈ STATUS_FORCELIST, ∀ (a : Attempt) (rest : List Attempt),
      2 ≤ (sessionGet (Attempt.status code :: a :: rest)).2.1) ∧
    (∀ (a : Attempt) (rest : List Attempt),
      2 ≤ (sessionGet (Attempt.connError :: a :: rest)).2.1) ∧
    (∀ attempts, (sessionGet attempts).2.1 ≤ RETRY_TOTAL + 1) ∧
    (∀ attempts j q1 q2, (sessionGet attempts).2.2.get? j = some q1 →
      (sessionGet attempts).2.2.get? (j + 1) = some q2 → q2 = 2 * q1) ∧
    (∀ (nm : String) (rest : List Attempt) (body : Option Nat),
      fetch_meta nm (Attempt.status 404 :: rest) body
          = Outcome.errorRecord nm notFoundMsg (some 404) ∧
      (sessionGet (Attempt.status 404 :: rest)).2.1 = 1 ∧
      ∀ st : ChunkState Nat,
        handleResult st (fetch_meta nm (Attempt.status 404 :: rest) body)
          = log_error st nm notFoundMsg) ∧
    (∀ items : List (String × List Attempt × Option Nat),
      (processChunk items).results.length + (processChunk items).errorLog.length
        = items.length) := by
  refine ⟨?_, ?_, ?_, ?_, ?_, ?_⟩
  · intro code hcode a rest
    show 2 ≤ (retryLoopAux STATUS_FORCELIST BACKOFF_FACTOR (4 + 1) 0
        (Attempt.status code :: a :: rest)).2.1
    have h1 := retryLoopAux_cons_retryable STATUS_FORCELIST BACKOFF_FACTOR code hcode
      4 0 (a :: rest)
    have h2 := retryLoopAux_made_pos STATUS_FORCELIST BACKOFF_FACTOR a rest 4 (0 + 1)
    omega
  · intro a rest
    show 2 ≤ (retryLoopAux STATUS_FORCELIST BACKOFF_FACTOR (4 + 1) 0
        (Attempt.connError :: a :: rest)).2.1
    have h1 := retryLoopAux_cons_conn STATUS_FORCELIST BACKOFF_FACTOR 4 0 (a :: rest)
    have h2 := retryLoopAux_made_pos STATUS_FORCELIST BACKOFF_FACTOR a rest 4 (0 + 1)
    omega
  · intro attempts
    exact retryLoopAux_requests_le STATUS_FORCELIST BACKOFF_FACTOR attempts RETRY_TOTAL 0
  · intro attempts j q1 q2 h1 h2
    have e1 := retryLoopAux_sleep_shape STATUS_FORCELIST BACKOFF_FACTOR attempts
      RETRY_TOTAL 0 j q1 h1
    have e2 := retryLoopAux_sleep_shape STATUS_FORCELIST BACKOFF_FACTOR attempts
      RETRY_TOTAL 0 (j + 1) q2 h2
    rw [e1, e2, Nat.zero_add, Nat.zero_add, pow_succ]
    ring
  · intro nm rest body
    exact ⟨rfl, rfl, fun st => rfl⟩
  · intro items
    have h := processChunk_fold_total items ⟨[], []⟩
    simpa [processChunk] using h

/-- Claim C5 (witness): a concrete 429 response followed by a success is
retried, so at least two requests are made for that item. -/
theorem c5_retry_backoff_and_isolation_witness :
    2 ≤ (sessionGet [Attempt.status 429, Attempt.status 200]).2.1 :=
  c5_retry_backoff_and_isolation.1 429 (by decide) (Attempt.status 200) []

end NpmPlus
